import Mathlib

/-!
Verification of the Abaqus Thermal ODB version-downgrader scripts
(`export_odb_nt11.py` and `import_odb_nt11_2019.py`).

The two scripts are shallowly embedded below.  Scalar float payloads
(temperatures, coordinates, frame times) are modelled by `Int`: no verified
property computes with the numeric values, they are only stored, copied and
compared, so the choice of carrier is irrelevant as long as it has decidable
equality.  Python's `float(x)` coercion is the identity on such scalars.
-/

namespace Odb

/-- Scalar float payloads; only stored and compared, never computed with. -/
abbrev Scalar := Int

/-! ## Exporter data model (`export_odb_nt11.py`) -/

/-- A live section-point handle of the source store.  It carries a `number`
and a `description` attribute (either may be missing, `getattr` then yields
`None`) plus a handle identity `hid`: the source store may hand out
distinct-but-equal handles, which differ only in `hid`. -/
structure SPHandle where
  number : Option Int
  description : Option String
  hid : Nat
deriving DecidableEq, Repr

/-- The plain dict `sp_to_dict` builds: `{"number": ..., "description": ...}`.
`none` components stand for JSON `null`. -/
structure SPDict where
  number : Option Int
  description : Option String
deriving DecidableEq, Repr

/-- `sp_to_dict(sp)` from `export_odb_nt11.py`: `None` maps to `None`,
otherwise `{"number": int(num) if num is not None else None,
"description": desc}` (`int` is the identity on integer numbers). -/
def sp_to_dict : Option SPHandle → Option SPDict
  | none => none
  | some sp => some { number := sp.number, description := sp.description }

/-- The source store's position enum constant attached to a field value
(`v.position`); `other` covers any constant outside the four known ones. -/
inductive SrcPos where
  | NODAL
  | ELEMENT_NODAL
  | INTEGRATION_POINT
  | WHOLE_ELEMENT
  | other (s : String)
deriving DecidableEq, Repr

/-- `position_name(pos)` from `export_odb_nt11.py`: map the enum to a stable
string, falling back to `str(pos)` for unknown constants. -/
def position_name : SrcPos → String
  | .NODAL => "NODAL"
  | .ELEMENT_NODAL => "ELEMENT_NODAL"
  | .INTEGRATION_POINT => "INTEGRATION_POINT"
  | .WHOLE_ELEMENT => "WHOLE_ELEMENT"
  | .other s => s

/-- An element of a list/tuple payload: either something Python's `float()`
accepts, or not (a nested sequence, a string of non-numeric text, ...).
The code unwraps at most one sequence level, so one level suffices. -/
inductive RawElem where
  | scalar (x : Scalar)
  | nonscalar
deriving DecidableEq, Repr

/-- A raw field-value payload `v.data`.  `scalar` is any payload Python's
`float()` accepts (the normal case: a float); `seq` is a list/tuple payload
(`float()` raises on those); `other` is any non-numeric, non-sequence payload
(`float()` raises, `isinstance(val, (list, tuple))` is false). -/
inductive RawVal where
  | scalar (x : Scalar)
  | seq (xs : List RawElem)
  | other
deriving DecidableEq, Repr

/-- Python `float(val)` on a whole payload: succeeds exactly on `scalar`. -/
def pyFloat : RawVal → Option Scalar
  | .scalar x => some x
  | _ => none

/-- Python `float(val[0])` on a sequence element. -/
def pyFloatE : RawElem → Option Scalar
  | .scalar x => some x
  | .nonscalar => none

/-- The value-coercion logic of `export_nt11` (lines 167–176): try
`float(val)`; on failure, if `val` is a 1-element list/tuple take
`float(val[0])`; any remaining failure re-raises (modelled by
`Except.error`). -/
def coerceData (val : RawVal) : Except Unit Scalar :=
  match pyFloat val with
  | some f => .ok f
  | none =>
    match val with
    | .seq [x] =>
      match pyFloatE x with
      | some f => .ok f
      | none => .error ()
    | _ => .error ()

/-- One per-entity field value record of the source store
(an element of `fo.values`). -/
structure VRec where
  instanceName : String
  position : SrcPos
  sectionPoint : Option SPHandle
  nodeLabel : Option Int
  elementLabel : Option Int
  data : RawVal
deriving DecidableEq, Repr

/-- `lbl = getattr(v, "nodeLabel", getattr(v, "elementLabel", None))`. -/
def labelOf (v : VRec) : Option Int :=
  v.nodeLabel.orElse fun _ => v.elementLabel

/-- The bucket key `(iname, pos, json.dumps(sp, sort_keys=True))`.
`json.dumps` with sorted keys is injective on the dicts `sp_to_dict`
produces (and renders `None` as `null`, distinct from every dict), so the
canonical JSON string key is modelled by the `Option SPDict` value itself. -/
abbrev BKey := String × String × Option SPDict

/-- The key of the bucket a value record is accumulated into. -/
def bucketKey (v : VRec) : BKey :=
  (v.instanceName, position_name v.position, sp_to_dict v.sectionPoint)

/-- One accumulation bucket (the dict stored under a key of `buckets`). -/
structure Bucket where
  labels : List Int
  values : List (List Scalar)
  inst : String
  position : String
  section_point : Option SPDict
deriving DecidableEq, Repr

/-- The fresh bucket `setdefault` installs for a new key. -/
def newBucket (v : VRec) : Bucket :=
  { labels := [], values := [], inst := v.instanceName,
    position := position_name v.position,
    section_point := sp_to_dict v.sectionPoint }

/-- Appending one `(label, [value])` pair to a bucket. -/
def pushVal (b : Bucket) (lbl : Int) (x : Scalar) : Bucket :=
  { b with labels := b.labels ++ [lbl], values := b.values ++ [[x]] }

/-- `buckets` is a Python dict; modelled as an association list in insertion
order.  `upsert` is `setdefault` followed by the two in-place appends. -/
def upsert : List (BKey × Bucket) → BKey → Bucket → Int → Scalar → List (BKey × Bucket)
  | [], k, dflt, lbl, x => [(k, pushVal dflt lbl x)]
  | (k', b) :: rest, k, dflt, lbl, x =>
    if k' = k then (k', pushVal b lbl x) :: rest
    else (k', b) :: upsert rest k dflt lbl x

/-- Association-list lookup (dict access). -/
def lookupB : List (BKey × Bucket) → BKey → Option Bucket
  | [], _ => none
  | (k', b) :: rest, k => if k' = k then some b else lookupB rest k

/-- Processing one value record `v` of the inner loop of `export_nt11`
(lines 158–178): coerce the value (maybe raising), coerce the label
(`int(None)` raises), then push into the keyed bucket. -/
def addVal (bs : List (BKey × Bucket)) (v : VRec) : Except Unit (List (BKey × Bucket)) :=
  match coerceData v.data with
  | .error e => .error e
  | .ok valf =>
    match labelOf v with
    | none => .error ()
    | some lbl => .ok (upsert bs (bucketKey v) (newBucket v) lbl valf)

/-- The whole bucketing loop `for v in fo.values` over one frame's records. -/
def bucketValues : List (BKey × Bucket) → List VRec → Except Unit (List (BKey × Bucket))
  | bs, [] => .ok bs
  | bs, v :: vs =>
    match addVal bs v with
    | .error e => .error e
    | .ok bs' => bucketValues bs' vs

/-- Decidable equality of `Except` results, used to evaluate runs of the
embedded loops on concrete inputs. -/
instance {ε α : Type} [DecidableEq ε] [DecidableEq α] : DecidableEq (Except ε α) :=
  fun a b =>
    match a, b with
    | .error e, .error e' => decidable_of_iff (e = e') (by simp)
    | .error _, .ok _ => Decidable.isFalse fun h => Except.noConfusion h
    | .ok _, .error _ => Decidable.isFalse fun h => Except.noConfusion h
    | .ok x, .ok y => decidable_of_iff (x = y) (by simp)

/-- The records of `vs` that fall into the bucket keyed `k`. -/
def recsFor (k : BKey) (vs : List VRec) : List VRec :=
  vs.filter fun v => bucketKey v = k

/-- Total read-back of the coerced label (defaulting; on every record the
bucketing loop accepts, `labelOf` is `some`). -/
def labD (v : VRec) : Int := (labelOf v).getD 0

/-- Total read-back of the coerced value wrapped as a 1-element list. -/
def valD (v : VRec) : List Scalar := [((coerceData v.data).toOption).getD 0]

/-- The keys of the bucket dict, in insertion order. -/
def keysOf (bs : List (BKey × Bucket)) : List BKey := bs.map Prod.fst

/-- Two source section-point handles agreeing on `(number, description)`;
they may still be distinct handles (different `hid`).  `none`/`none` counts
as agreeing (both records carry no section point). -/
def spSameND : Option SPHandle → Option SPHandle → Prop
  | none, none => True
  | some a, some b => a.number = b.number ∧ a.description = b.description
  | _, _ => False

/-- The precondition of the bucket-label uniqueness invariant: the source
store assigns at most one value per label per (position, section point)
within the frame. -/
def AtMostOnePerLabel (vs : List VRec) : Prop :=
  vs.Pairwise fun v w =>
    ¬(labD v = labD w ∧ position_name v.position = position_name w.position ∧
      sp_to_dict v.sectionPoint = sp_to_dict w.sectionPoint)

instance (vs : List VRec) : Decidable (AtMostOnePerLabel vs) := by
  unfold AtMostOnePerLabel
  infer_instance

/-! ## Importer data model (`import_odb_nt11_2019.py`) -/

/-- `to_str` forces unicode to byte str; on the plain strings of this model
it is the identity. -/
def to_str (s : String) : String := s

/-- The target store's position constants (`abaqusConstants`). -/
inductive AbqPos where
  | NODAL
  | ELEMENT_NODAL
  | INTEGRATION_POINT
  | WHOLE_ELEMENT
deriving DecidableEq, Repr

/-- `pos_from_name(name)` from the importer (lines 40–46): unrecognized
strings fall through to `NODAL`. -/
def pos_from_name (name : String) : AbqPos :=
  if to_str name = "NODAL" then .NODAL
  else if to_str name = "ELEMENT_NODAL" then .ELEMENT_NODAL
  else if to_str name = "INTEGRATION_POINT" then .INTEGRATION_POINT
  else if to_str name = "WHOLE_ELEMENT" then .WHOLE_ELEMENT
  else .NODAL

/-- The target store's step-domain constants. -/
inductive Domain where
  | TIME
  | FREQUENCY
  | MODAL
deriving DecidableEq, Repr

/-- One node row `[label, x, y, z]` of the mesh document. -/
structure NodeRec where
  label : Int
  x : Scalar
  y : Scalar
  z : Scalar
deriving DecidableEq, Repr

/-- One element record of the mesh document. -/
structure ElemRec where
  label : Int
  etype : String
  connectivity : List Int
deriving DecidableEq, Repr

/-- One instance entry of the mesh document (`mesh['instances']` is a JSON
object, modelled as a list in iteration order). -/
structure MeshInst where
  name : String
  nodes : List NodeRec
  elements : List ElemRec
deriving DecidableEq, Repr

/-- One frame record of the step/frame catalog. -/
structure FrameRec where
  index : Int
  value : Scalar
  description : String
deriving DecidableEq, Repr

/-- One step record of the step/frame catalog.  `domain` and `numFrames`
are read into the catalog; the importer never uses them. -/
structure StepRec where
  name : String
  domain : String
  numFrames : Int
  frames : List FrameRec
deriving DecidableEq, Repr

/-- One line of the field-value stream `nt11.jsonl`. -/
structure StreamRec where
  step : String
  frame_index : Int
  frame_value : Scalar
  instanceName : String
  position : String
  section_point : Option SPDict
  labels : List Int
  values : List (List Scalar)
deriving DecidableEq, Repr

/-- The observable actions the importer performs on the target store. -/
inductive Ev where
  | createPart (name : String)
  | addNodes (iname : String)
  | addElements (iname : String) (etype : String)
  | createInstance (name : String)
  | save
  | close
  | reopen
  | sectionCategory
  | createStep (name : String) (domain : Domain) (timePeriod : Scalar)
  | createFrame (sname : String) (idx : Int) (value : Scalar)
  | createFieldOutput (sname : String) (idx : Int)
  | createSectionPoint (number : Int) (description : String)
  | addData (pos : AbqPos) (iname : String) (labels : List Int) (sp : Option Nat)
deriving DecidableEq, Repr

/-- Geometry-phase store writes. -/
def isGeomEv : Ev → Bool
  | .createPart _ => true
  | .addNodes _ => true
  | .addElements _ _ => true
  | .createInstance _ => true
  | _ => false

/-- Results-phase store writes. -/
def isResultEv : Ev → Bool
  | .sectionCategory => true
  | .createStep _ _ _ => true
  | .createFrame _ _ _ => true
  | .createFieldOutput _ _ => true
  | .createSectionPoint _ _ => true
  | .addData _ _ _ _ => true
  | _ => false

/-- First-encounter order of the element types of an instance (the keys of
the `groups` dict built by `setdefault`). -/
def typeGroups (es : List ElemRec) : List String :=
  es.foldl (fun acc e => if to_str e.etype ∈ acc then acc else acc ++ [to_str e.etype]) []

/-- Geometry writes for one mesh instance (lines 105–133): create the part,
add all nodes in one batched call when there are any, add one
type-homogeneous element batch per element type, then create the assembly
instance. -/
def geomEventsInst (m : MeshInst) : List Ev :=
  [Ev.createPart (to_str ("PART_FROM_" ++ m.name))]
    ++ (if m.nodes.isEmpty then [] else [Ev.addNodes m.name])
    ++ (if m.elements.isEmpty then []
        else (typeGroups m.elements).map (Ev.addElements m.name))
    ++ [Ev.createInstance (to_str m.name)]

/-- All geometry-stage writes, one instance after the other. -/
def geomEvents (mesh : List MeshInst) : List Ev :=
  (mesh.map geomEventsInst).flatten

/-- The lazily built pool of created section points: `(number, description)`
keys mapped to the created handle; `next` generates handle identities in
creation order. -/
structure SPPool where
  pool : List ((Int × String) × Nat)
  next : Nat
deriving DecidableEq, Repr

/-- Association-list lookup for the section-point pool. -/
def lookupP : List ((Int × String) × Nat) → (Int × String) → Option Nat
  | [], _ => none
  | (k', h) :: rest, k => if k' = k then some h else lookupP rest k

/-- `desc = sp_dict.get('description', '')` then `to_str(desc)`: a JSON
`null` description reaches `to_str` as Python `None` and is rendered
`"None"` by `str`. -/
def descStr : Option String → String
  | some s => to_str s
  | none => "None"

/-- The pool key of `get_or_make_sp`:
`(int(num) if num is not None else 1, to_str(desc))`. -/
def spKey (d : SPDict) : Int × String :=
  (d.number.getD 1, descStr d.description)

/-- `get_or_make_sp(sp_dict)` (lines 155–165): `None` passes through;
otherwise look the key up in the pool, creating and caching a fresh section
point on a miss.  Returns the handle, the new pool and the store writes
performed. -/
def get_or_make_sp (st : SPPool) : Option SPDict → Option Nat × SPPool × List Ev
  | none => (none, st, [])
  | some d =>
    let k := spKey d
    match lookupP st.pool k with
    | some h => (some h, st, [])
    | none =>
      (some st.next,
       { pool := st.pool ++ [(k, st.next)], next := st.next + 1 },
       [Ev.createSectionPoint k.1 k.2])

/-- The importer's results-stage state: created step names, created
(step name, frame index) pairs, the per-frame `NT11` field-output cache,
the section-point pool, and the instance-name map rebuilt from the
reopened store. -/
structure IState where
  steps : List String
  frames : List (String × Int)
  nt11_cache : List (String × Int)
  spPool : SPPool
  instMap : List String
deriving DecidableEq, Repr

/-- Errors the results stage can raise. -/
inductive IErr where
  | stepKeyError
  | missingInstance
deriving DecidableEq, Repr

/-- Lines 211–216: get or lazily create the frame of a stream record;
looking the step up in `step_objs` raises `KeyError` when the record's step
name is not in the catalog. -/
def frameStep (st : IState) (r : StreamRec) : Except IErr (IState × List Ev) :=
  if (to_str r.step, r.frame_index) ∈ st.frames then .ok (st, [])
  else if to_str r.step ∈ st.steps then
    .ok ({ st with frames := st.frames ++ [(to_str r.step, r.frame_index)] },
         [Ev.createFrame (to_str r.step) r.frame_index r.frame_value])
  else .error .stepKeyError

/-- Lines 219–225: one `NT11` field output per (step, frame), cached. -/
def foStep (st : IState) (r : StreamRec) : IState × List Ev :=
  if (to_str r.step, r.frame_index) ∈ st.nt11_cache then (st, [])
  else ({ st with nt11_cache := st.nt11_cache ++ [(to_str r.step, r.frame_index)] },
        [Ev.createFieldOutput (to_str r.step) r.frame_index])

/-- Processing one stream record (lines 199–242): resolve the frame (may
raise), resolve the field output, resolve the section point, check the
instance (may raise), then perform the labeled-data write — with the
section-point argument exactly when a section point was resolved and the
position is `INTEGRATION_POINT`.  Returns the store writes performed
(also on the error paths, where they precede the raise) and the outcome. -/
def processRec (st : IState) (r : StreamRec) : List Ev × Except IErr IState :=
  match frameStep st r with
  | .error e => ([], .error e)
  | .ok (st1, evs1) =>
    let (st2, evs2) := foStep st1 r
    let (spo, pool2, evs3) := get_or_make_sp st2.spPool r.section_point
    let st3 := { st2 with spPool := pool2 }
    if to_str r.instanceName ∈ st3.instMap then
      let pos := pos_from_name r.position
      let spArg := if spo.isSome ∧ pos = AbqPos.INTEGRATION_POINT then spo else none
      (evs1 ++ evs2 ++ evs3 ++ [Ev.addData pos (to_str r.instanceName) r.labels spArg],
       .ok st3)
    else (evs1 ++ evs2 ++ evs3, .error .missingInstance)

/-- Streaming the whole field-value artifact, stopping at the first raise. -/
def processStream (st : IState) : List StreamRec → List Ev × Option IErr
  | [] => ([], none)
  | r :: rs =>
    match processRec st r with
    | (evs, .error e) => (evs, some e)
    | (evs, .ok st') =>
      let (evs', e') := processStream st' rs
      (evs ++ evs', e')

/-- Creating one catalog step and pre-creating its frames (lines 173–192).
The catalog's `domain` string is ignored: the step is created with the
`TIME` constant; `timePeriod` is the last frame's value (0 when there are
no frames) clamped to ≥ 0. -/
def buildStep (st : IState) (s : StepRec) : IState × List Ev :=
  let tp : Scalar :=
    match s.frames.getLast? with
    | some fr => fr.value
    | none => 0
  let st1 := { st with steps := st.steps ++ [to_str s.name] }
  let st2 := { st1 with
    frames := st1.frames ++ s.frames.map fun fr => (to_str s.name, fr.index) }
  (st2,
   Ev.createStep (to_str s.name) Domain.TIME (max tp 0)
     :: s.frames.map fun fr => Ev.createFrame (to_str s.name) fr.index fr.value)

/-- The whole steps/frames pre-creation loop over the catalog. -/
def buildSteps : IState → List StepRec → IState × List Ev
  | st, [] => (st, [])
  | st, s :: rest =>
    let (st1, evs) := buildStep st s
    let (st2, evs') := buildSteps st1 rest
    (st2, evs ++ evs')

/-- The three input artifacts of the importer. -/
structure ImportInput where
  mesh : List MeshInst
  steps : List StepRec
  stream : List StreamRec
deriving DecidableEq, Repr

/-- The initial results-stage state after reopening: the instance map is
rebuilt from the reopened store, which holds exactly the instances the
geometry stage created (one per mesh instance, same name). -/
def initState (mesh : List MeshInst) : IState :=
  { steps := [], frames := [], nt11_cache := [], spPool := ⟨[], 0⟩,
    instMap := mesh.map fun m => to_str m.name }

/-- The importer `main` (lines 88–249) as the sequence of store actions it
performs, plus the error it terminates with, if any: geometry writes, the
save/close/reopen barrier, the section category, the catalog steps and
frames, the streamed field writes, and — only when nothing raised — the
final save and close.  An uncaught exception propagates: no action follows
it. -/
def importRun (inp : ImportInput) : List Ev × Option IErr :=
  let g := geomEvents inp.mesh
  let (st1, sevs) := buildSteps (initState inp.mesh) inp.steps
  let (revs, err) := processStream st1 inp.stream
  match err with
  | some e =>
    (g ++ [Ev.save, Ev.close, Ev.reopen, Ev.sectionCategory] ++ sevs ++ revs, some e)
  | none =>
    (g ++ [Ev.save, Ev.close, Ev.reopen, Ev.sectionCategory] ++ sevs ++ revs
       ++ [Ev.save, Ev.close], none)

/-! ## Exporter run trace (`main` of `export_odb_nt11.py`) -/

/-- Observable actions of the exporter. -/
inductive XEv where
  | openStore
  | writeMesh
  | writeSteps
  | writeRecord (step : String) (fidx : Int)
  | closeStore
deriving DecidableEq, Repr

/-- One frame of a source step, as `export_nt11` sees it: its scalar value
and, when the frame carries an `NT11` field, that field's value records. -/
structure SrcFrame where
  frameValue : Scalar
  fieldNT11 : Option (List VRec)
deriving DecidableEq, Repr

/-- One step of the source store. -/
structure SrcStep where
  frames : List SrcFrame
deriving DecidableEq, Repr

/-- The source store as the exporter reads it. -/
structure SrcOdb where
  steps : List (String × SrcStep)
deriving DecidableEq, Repr

/-- `if step_filter and sname not in step_filter: continue` — Python
truthiness: `None` and the empty list disable filtering. -/
def retainStep (filt : Option (List String)) (s : String) : Bool :=
  match filt with
  | none => true
  | some l => l.isEmpty || l.contains s

/-- One frame of `export_nt11` (lines 147–192): skip an absent or empty
`NT11` field, bucket the values (a bad payload raises before any line of
the frame is written), then write one stream line per bucket. -/
def exportFrame (sname : String) (fidx : Int) (fr : SrcFrame) : List XEv × Option Unit :=
  match fr.fieldNT11 with
  | none => ([], none)
  | some vs =>
    if vs.isEmpty then ([], none)
    else
      match bucketValues [] vs with
      | .error _ => ([], some ())
      | .ok bs => (bs.map fun _ => XEv.writeRecord sname fidx, none)

/-- The frame loop of `export_nt11`, indices counting up from `i`. -/
def exportNT11Frames (sname : String) : Int → List SrcFrame → List XEv × Option Unit
  | _, [] => ([], none)
  | i, fr :: rest =>
    match exportFrame sname i fr with
    | (evs, some u) => (evs, some u)
    | (evs, none) =>
      let (evs', e) := exportNT11Frames sname (i + 1) rest
      (evs ++ evs', e)

/-- The step loop of `export_nt11`, honouring the step filter. -/
def exportNT11Steps (filt : Option (List String)) :
    List (String × SrcStep) → List XEv × Option Unit
  | [] => ([], none)
  | (sname, st) :: rest =>
    if retainStep filt sname then
      match exportNT11Frames sname 0 st.frames with
      | (evs, some u) => (evs, some u)
      | (evs, none) =>
        let (evs', e) := exportNT11Steps filt rest
        (evs ++ evs', e)
    else exportNT11Steps filt rest

/-- The exporter `main` (lines 196–212): open the store, write the mesh
document, write the catalog document, stream the field values (which may
abort), then close.  An uncaught exception propagates: the close never
runs on that path. -/
def exportRun (odb : SrcOdb) (filt : Option (List String)) : List XEv × Option Unit :=
  match exportNT11Steps filt odb.steps with
  | (evs, some u) => ([XEv.openStore, XEv.writeMesh, XEv.writeSteps] ++ evs, some u)
  | (evs, none) =>
    ([XEv.openStore, XEv.writeMesh, XEv.writeSteps] ++ evs ++ [XEv.closeStore], none)

/-! ## Concrete fixtures used by the witness theorems -/

def c2v1 : VRec := ⟨"I", .INTEGRATION_POINT, some ⟨some 2, some "Top", 0⟩, some 5, none, .scalar 21⟩

def c2v2 : VRec := ⟨"I", .INTEGRATION_POINT, some ⟨some 2, some "Top", 1⟩, some 6, none, .scalar 22⟩

def c2v3 : VRec := ⟨"I", .NODAL, none, some 7, none, .scalar 23⟩

def c2bs : List (BKey × Bucket) :=
  [(("I", "INTEGRATION_POINT", some ⟨some 2, some "Top"⟩),
    ⟨[5, 6], [[21], [22]], "I", "INTEGRATION_POINT", some ⟨some 2, some "Top"⟩⟩),
   (("I", "NODAL", none), ⟨[7], [[23]], "I", "NODAL", none⟩)]

def c4v1 : VRec := ⟨"P-1", .NODAL, none, some 11, none, .scalar 300⟩

def c4v2 : VRec := ⟨"P-1", .NODAL, none, some 12, none, .scalar 301⟩

def c4v3 : VRec := ⟨"P-2", .WHOLE_ELEMENT, none, none, some 9, .seq [.scalar 302]⟩

def c4k : BKey := ("P-1", "NODAL", none)

def c4b : Bucket := ⟨[11, 12], [[300], [301]], "P-1", "NODAL", none⟩

def c4bs : List (BKey × Bucket) :=
  [(c4k, c4b), (("P-2", "WHOLE_ELEMENT", none), ⟨[9], [[302]], "P-2", "WHOLE_ELEMENT", none⟩)]

theorem recsFor_nil (k : BKey) : recsFor k [] = [] := rfl

theorem recsFor_cons (k : BKey) (v : VRec) (vs : List VRec) :
    recsFor k (v :: vs) =
      if bucketKey v = k then v :: recsFor k vs else recsFor k vs := by
  by_cases h : bucketKey v = k <;> simp [recsFor, List.filter_cons, h]

theorem lookupB_upsert (bs : List (BKey × Bucket)) (k k' : BKey) (dflt : Bucket)
    (lbl : Int) (x : Scalar) :
    lookupB (upsert bs k dflt lbl x) k' =
      if k' = k then some (pushVal ((lookupB bs k).getD dflt) lbl x)
      else lookupB bs k' := by
  induction bs with
  | nil =>
    by_cases h : k' = k
    · subst h; simp [upsert, lookupB]
    · simp [upsert, lookupB, h, Ne.symm h]
  | cons p rest ih =>
    obtain ⟨k₀, b₀⟩ := p
    by_cases h₀ : k₀ = k
    · subst h₀
      by_cases h : k' = k₀
      · subst h; simp [upsert, lookupB]
      · simp [upsert, lookupB, h, Ne.symm h]
    · by_cases h : k' = k
      · subst h
        simp [upsert, lookupB, h₀, Ne.symm h₀, ih]
      · by_cases h₁ : k₀ = k'
        · subst h₁; simp [upsert, lookupB, h₀, h]
        · simp [upsert, lookupB, h₀, h, h₁, ih]

theorem keysOf_upsert (bs : List (BKey × Bucket)) (k : BKey) (dflt : Bucket)
    (lbl : Int) (x : Scalar) :
    keysOf (upsert bs k dflt lbl x) =
      if k ∈ keysOf bs then keysOf bs else keysOf bs ++ [k] := by
  induction bs with
  | nil => simp [upsert, keysOf]
  | cons p rest ih =>
    obtain ⟨k₀, b₀⟩ := p
    by_cases h₀ : k₀ = k
    · subst h₀; simp [upsert, keysOf]
    · have hsym : ¬ (k = k₀) := fun he => h₀ he.symm
      simp only [upsert, if_neg h₀, keysOf, List.map_cons, List.mem_cons, hsym,
        false_or] at ih ⊢
      rw [ih]
      by_cases hm : k ∈ List.map Prod.fst rest
      · simp [hm]
      · simp [hm]

theorem nodup_keysOf_upsert (bs : List (BKey × Bucket)) (k : BKey) (dflt : Bucket)
    (lbl : Int) (x : Scalar) (h : (keysOf bs).Nodup) :
    (keysOf (upsert bs k dflt lbl x)).Nodup := by
  rw [keysOf_upsert]
  by_cases hm : k ∈ keysOf bs
  · simpa [hm] using h
  · simp [hm, List.nodup_append, h]

theorem nodup_keysOf_bucketValues (vs : List VRec) :
    ∀ bs bs', bucketValues bs vs = .ok bs' → (keysOf bs).Nodup →
      (keysOf bs').Nodup := by
  induction vs with
  | nil =>
    intro bs bs' h hnd
    simp only [bucketValues] at h
    injection h with h
    subst h; exact hnd
  | cons v vs ih =>
    intro bs bs' h hnd
    simp only [bucketValues] at h
    cases hv : addVal bs v with
    | error e => rw [hv] at h; cases h
    | ok bs₁ =>
      simp only [hv] at h
      refine ih bs₁ bs' h ?_
      simp only [addVal] at hv
      cases hc : coerceData v.data with
      | error e => rw [hc] at hv; cases hv
      | ok valf =>
        rw [hc] at hv
        cases hl : labelOf v with
        | none => rw [hl] at hv; cases hv
        | some lbl =>
          rw [hl] at hv
          cases hv
          exact nodup_keysOf_upsert _ _ _ _ _ hnd

theorem lookupB_eq_some_of_mem (bs : List (BKey × Bucket)) (k : BKey) (b : Bucket)
    (hnd : (keysOf bs).Nodup) (hm : (k, b) ∈ bs) : lookupB bs k = some b := by
  induction bs with
  | nil => cases hm
  | cons p rest ih =>
    obtain ⟨k₀, b₀⟩ := p
    rcases List.mem_cons.mp hm with h | h
    · cases h; simp [lookupB]
    · simp only [keysOf, List.map_cons, List.nodup_cons] at hnd
      have hk : k₀ ≠ k := by
        intro he; subst he
        exact hnd.1 (List.mem_map.mpr ⟨(k₀, b), h, rfl⟩)
      have hrest : (keysOf rest).Nodup := hnd.2
      simp [lookupB, hk, ih hrest h]

theorem mem_of_lookupB (bs : List (BKey × Bucket)) (k : BKey) (b : Bucket)
    (h : lookupB bs k = some b) : (k, b) ∈ bs := by
  induction bs with
  | nil => cases h
  | cons p rest ih =>
    obtain ⟨k₀, b₀⟩ := p
    by_cases hk : k₀ = k
    · subst hk
      simp [lookupB] at h
      simp [h]
    · simp [lookupB, hk] at h
      exact List.mem_cons_of_mem _ (ih h)

/-- The central accumulation invariant of the exporter's bucketing loop:
after successfully processing `vs` starting from bucket state `bs`, the
bucket found under any key `k` holds exactly the labels and values of the
records of `vs` whose key is `k`, in source order, appended to whatever the
key already held. -/
theorem bucketValues_lookup (vs : List VRec) :
    ∀ bs bs', bucketValues bs vs = .ok bs' → ∀ k,
      lookupB bs' k =
        match lookupB bs k with
        | some b => some { b with labels := b.labels ++ (recsFor k vs).map labD,
                                  values := b.values ++ (recsFor k vs).map valD }
        | none =>
          if recsFor k vs = [] then none
          else some { labels := (recsFor k vs).map labD,
                      values := (recsFor k vs).map valD,
                      inst := k.1, position := k.2.1, section_point := k.2.2 } := by
  induction vs with
  | nil =>
    intro bs bs' h k
    simp only [bucketValues] at h
    injection h with h
    subst h
    cases hb : lookupB bs k <;> simp [recsFor_nil, hb]
  | cons v vs ih =>
    intro bs bs' h k
    simp only [bucketValues] at h
    cases hv : addVal bs v with
    | error e => rw [hv] at h; cases h
    | ok bs₁ =>
      simp only [hv] at h
      simp only [addVal] at hv
      cases hc : coerceData v.data with
      | error e => rw [hc] at hv; cases hv
      | ok valf =>
        rw [hc] at hv
        cases hl : labelOf v with
        | none => rw [hl] at hv; cases hv
        | some lbl =>
          rw [hl] at hv
          cases hv
          have hlab : labD v = lbl := by simp [labD, hl]
          have hval : valD v = [valf] := by simp [valD, hc, Except.toOption]
          have hup := lookupB_upsert bs (bucketKey v) k (newBucket v) lbl valf
          rw [ih _ _ h k, hup, recsFor_cons]
          by_cases hk : bucketKey v = k
          · rw [if_pos hk, if_pos hk.symm]
            cases hb : lookupB bs (bucketKey v) with
            | some b =>
              rw [hk] at hb
              simp [hb, pushVal, hlab, hval]
            | none =>
              rw [hk] at hb
              have : recsFor k vs ≠ [] ∨ True := Or.inr trivial
              simp only [hb, Option.getD_none]
              have hnb : pushVal (newBucket v) lbl valf =
                  { labels := [lbl], values := [[valf]], inst := k.1,
                    position := k.2.1, section_point := k.2.2 } := by
                subst hk
                simp [pushVal, newBucket, bucketKey]
              rw [hnb]
              simp [hlab, hval, List.map_cons]
          · rw [if_neg hk, if_neg (fun he => hk he.symm)]

theorem bucketKey_eq_of_spSameND (v1 v2 : VRec)
    (hi : v1.instanceName = v2.instanceName) (hp : v1.position = v2.position)
    (hs : spSameND v1.sectionPoint v2.sectionPoint) :
    bucketKey v1 = bucketKey v2 := by
  unfold bucketKey
  rw [hi, hp]
  cases h1 : v1.sectionPoint with
  | none =>
    cases h2 : v2.sectionPoint with
    | none => rfl
    | some s2 => rw [h1, h2] at hs; cases hs
  | some s1 =>
    cases h2 : v2.sectionPoint with
    | none => rw [h1, h2] at hs; cases hs
    | some s2 =>
      rw [h1, h2] at hs
      simp [sp_to_dict, hs.1, hs.2]


/-! ## Claim theorems -/

/-- C2: in the exporter's field bucketing, two value records of one frame
with the same instance name, the same position and section points agreeing
on (number, description) — or both with no section point — get the same
bucket key, hence are accumulated into the same bucket even when the source
store yields distinct-but-equal section-point handles; and a record with no
section point never shares a bucket with a record that has one. -/
theorem exporter_sp_bucket_canonicalization :
    (∀ v1 v2 : VRec, v1.instanceName = v2.instanceName → v1.position = v2.position →
      spSameND v1.sectionPoint v2.sectionPoint → bucketKey v1 = bucketKey v2)
    ∧ (∀ v1 v2 : VRec, v1.sectionPoint = none → v2.sectionPoint ≠ none →
      bucketKey v1 ≠ bucketKey v2)
    ∧ (∀ (vs : List VRec) (bs : List (BKey × Bucket)), bucketValues [] vs = .ok bs →
      ∀ v1 v2, v1 ∈ vs → v2 ∈ vs → v1.instanceName = v2.instanceName →
      v1.position = v2.position → spSameND v1.sectionPoint v2.sectionPoint →
      ∃ b, (bucketKey v1, b) ∈ bs ∧ v1 ∈ recsFor (bucketKey v1) vs ∧
        v2 ∈ recsFor (bucketKey v1) vs) := by
  refine ⟨bucketKey_eq_of_spSameND, ?_, ?_⟩
  · intro v1 v2 h1 h2 heq
    have h3 : sp_to_dict v1.sectionPoint = sp_to_dict v2.sectionPoint :=
      congrArg (fun k => k.2.2) heq
    rw [h1] at h3
    cases hs : v2.sectionPoint with
    | none => exact h2 hs
    | some s => rw [hs] at h3; simp [sp_to_dict] at h3
  · intro vs bs h v1 v2 hm1 hm2 hi hp hs
    have hkey := bucketKey_eq_of_spSameND v1 v2 hi hp hs
    have hv1 : v1 ∈ recsFor (bucketKey v1) vs := by
      simp [recsFor, List.mem_filter, hm1]
    have hv2 : v2 ∈ recsFor (bucketKey v1) vs := by
      simp [recsFor, List.mem_filter, hm2, hkey.symm]
    have hne : recsFor (bucketKey v1) vs ≠ [] := List.ne_nil_of_mem hv1
    have hmain := bucketValues_lookup vs [] bs h (bucketKey v1)
    simp only [lookupB] at hmain
    rw [if_neg hne] at hmain
    exact ⟨_, mem_of_lookupB bs _ _ hmain, hv1, hv2⟩

/-- Witness for C2: two records whose section points agree on
(number, description) but are distinct handles (`hid` 0 vs 1) share a
bucket; a record without a section point gets a different key. -/
theorem exporter_sp_bucket_canonicalization_witness :
    bucketKey c2v1 = bucketKey c2v2
    ∧ bucketKey c2v3 ≠ bucketKey c2v1
    ∧ ∃ b, (bucketKey c2v1, b) ∈ c2bs
        ∧ c2v1 ∈ recsFor (bucketKey c2v1) [c2v1, c2v2, c2v3]
        ∧ c2v2 ∈ recsFor (bucketKey c2v1) [c2v1, c2v2, c2v3] :=
  ⟨exporter_sp_bucket_canonicalization.1 c2v1 c2v2 rfl rfl ⟨rfl, rfl⟩,
   exporter_sp_bucket_canonicalization.2.1 c2v3 c2v1 rfl (by decide),
   exporter_sp_bucket_canonicalization.2.2 [c2v1, c2v2, c2v3] c2bs (by decide)
     c2v1 c2v2 (by decide) (by decide) rfl rfl ⟨rfl, rfl⟩⟩

/-- C3: a raw field-value payload coercible to a scalar float is stored as
that float; a 1-element list/tuple is unwrapped and its single element
coerced to a float; any other shape makes the bucketing raise, so any
successful bucketing run coerced every payload it saw — nothing is emitted
for, and nothing silently drops, a malformed value. -/
theorem exporter_value_coercion :
    (∀ x : Scalar, coerceData (RawVal.scalar x) = .ok x)
    ∧ (∀ x : Scalar, coerceData (RawVal.seq [RawElem.scalar x]) = .ok x)
    ∧ (∀ v : RawVal, (∀ x, v ≠ RawVal.scalar x) →
        (∀ x, v ≠ RawVal.seq [RawElem.scalar x]) → coerceData v = .error ())
    ∧ (∀ (vs : List VRec) (bs bs' : List (BKey × Bucket)),
        bucketValues bs vs = .ok bs' → ∀ w ∈ vs, ∃ x, coerceData w.data = .ok x) := by
  refine ⟨fun x => rfl, fun x => rfl, ?_, ?_⟩
  · intro v h1 h2
    cases v with
    | scalar x => exact absurd rfl (h1 x)
    | other => rfl
    | seq xs =>
      cases xs with
      | nil => rfl
      | cons e rest =>
        cases rest with
        | nil =>
          cases e with
          | scalar x => exact absurd rfl (h2 x)
          | nonscalar => rfl
        | cons e2 rest2 => rfl
  · intro vs
    induction vs with
    | nil => intro bs bs' h w hw; cases hw
    | cons v vs ih =>
      intro bs bs' h w hw
      simp only [bucketValues] at h
      cases hv : addVal bs v with
      | error e => rw [hv] at h; cases h
      | ok bs₁ =>
        simp only [hv] at h
        rcases List.mem_cons.mp hw with rfl | hw'
        · simp only [addVal] at hv
          cases hc : coerceData w.data with
          | error e => rw [hc] at hv; cases hv
          | ok x => exact ⟨x, rfl⟩
        · exact ih bs₁ bs' h w hw'

/-- Witness for C3: the non-coercible payload raises; a scalar payload
found in a successful run was coerced. -/
theorem exporter_value_coercion_witness :
    coerceData RawVal.other = .error ()
    ∧ ∃ x, coerceData (VRec.data ⟨"I", SrcPos.NODAL, none, some 1, none, RawVal.scalar 20⟩) = .ok x :=
  ⟨exporter_value_coercion.2.2.1 RawVal.other (fun _ h => by cases h) (fun _ h => by cases h),
   exporter_value_coercion.2.2.2 [⟨"I", SrcPos.NODAL, none, some 1, none, RawVal.scalar 20⟩]
     [] [(("I", "NODAL", none), ⟨[1], [[20]], "I", "NODAL", none⟩)] (by decide)
     ⟨"I", SrcPos.NODAL, none, some 1, none, RawVal.scalar 20⟩ (by decide)⟩

/-- C4: every bucket of a successful bucketing run has labels and values
sequences of equal length; zipping them reproduces the per-record
(label, value) association in accumulation order; and under the
precondition that the source assigns at most one value per label per
(position, section point) in the frame, the labels within one bucket are
pairwise distinct. -/
theorem exporter_bucket_label_value_invariant
    (vs : List VRec) (bs : List (BKey × Bucket))
    (h : bucketValues [] vs = .ok bs) (k : BKey) (b : Bucket)
    (hmem : (k, b) ∈ bs) :
    b.labels.length = b.values.length
    ∧ b.labels.zip b.values = (recsFor k vs).map (fun v => (labD v, valD v))
    ∧ (AtMostOnePerLabel vs → b.labels.Nodup) := by
  have hnd : (keysOf bs).Nodup :=
    nodup_keysOf_bucketValues vs [] bs h (by simp [keysOf])
  have hlook : lookupB bs k = some b := lookupB_eq_some_of_mem bs k b hnd hmem
  have hmain := bucketValues_lookup vs [] bs h k
  simp only [lookupB] at hmain
  rw [hlook] at hmain
  by_cases hre : recsFor k vs = []
  · rw [if_pos hre] at hmain; cases hmain
  · rw [if_neg hre] at hmain
    injection hmain with hmain
    subst hmain
    refine ⟨by simp, List.zip_map' _ _ _, ?_⟩
    intro hpre
    have hpre' : vs.Pairwise (fun v w =>
        ¬(labD v = labD w ∧ position_name v.position = position_name w.position ∧
          sp_to_dict v.sectionPoint = sp_to_dict w.sectionPoint)) := hpre
    have hsub : List.Sublist (recsFor k vs) vs := List.filter_sublist vs
    have hpair := List.Pairwise.sublist hsub hpre'
    have hkeys : ∀ v ∈ recsFor k vs, bucketKey v = k := by
      intro v hv
      have := List.mem_filter.mp hv
      exact of_decide_eq_true this.2
    have hpairNe : (recsFor k vs).Pairwise fun a b => labD a ≠ labD b := by
      refine hpair.imp_of_mem ?_
      intro a b ha hb hr hlab
      have hka := hkeys a ha
      have hkb := hkeys b hb
      refine hr ⟨hlab, ?_, ?_⟩
      · have h1 : position_name a.position = k.2.1 := by rw [← hka]; rfl
        have h2 : position_name b.position = k.2.1 := by rw [← hkb]; rfl
        rw [h1, h2]
      · have h1 : sp_to_dict a.sectionPoint = k.2.2 := by rw [← hka]; rfl
        have h2 : sp_to_dict b.sectionPoint = k.2.2 := by rw [← hkb]; rfl
        rw [h1, h2]
    exact hpairNe.map labD fun a b hab => hab

/-- Witness for C4 on a three-record frame that fills two buckets. -/
theorem exporter_bucket_label_value_invariant_witness :
    (c4b.labels.length = c4b.values.length
      ∧ c4b.labels.zip c4b.values =
          (recsFor c4k [c4v1, c4v2, c4v3]).map (fun v => (labD v, valD v))
      ∧ (AtMostOnePerLabel [c4v1, c4v2, c4v3] → c4b.labels.Nodup))
    ∧ c4b.labels.Nodup :=
  have h := exporter_bucket_label_value_invariant [c4v1, c4v2, c4v3] c4bs
    (by decide) c4k c4b (by decide)
  ⟨h, h.2.2 (by decide)⟩

theorem frameStep_evs (st : IState) (r : StreamRec) (st1 : IState) (evs1 : List Ev)
    (h : frameStep st r = .ok (st1, evs1)) :
    evs1 = [] ∨ evs1 = [Ev.createFrame (to_str r.step) r.frame_index r.frame_value] := by
  unfold frameStep at h
  split at h
  · injection h with h; cases h; exact Or.inl rfl
  · split at h
    · injection h with h; cases h; exact Or.inr rfl
    · cases h

theorem frameStep_frames (st : IState) (r : StreamRec) (st1 : IState) (evs1 : List Ev)
    (h : frameStep st r = .ok (st1, evs1)) :
    (to_str r.step, r.frame_index) ∈ st1.frames := by
  unfold frameStep at h
  split at h
  · rename_i hmem
    injection h with h; cases h; exact hmem
  · split at h
    · injection h with h; cases h; simp
    · cases h

theorem frameStep_fields (st : IState) (r : StreamRec) (st1 : IState) (evs1 : List Ev)
    (h : frameStep st r = .ok (st1, evs1)) :
    st1.steps = st.steps ∧ st1.nt11_cache = st.nt11_cache ∧ st1.spPool = st.spPool
      ∧ st1.instMap = st.instMap := by
  unfold frameStep at h
  split at h
  · injection h with h; cases h; exact ⟨rfl, rfl, rfl, rfl⟩
  · split at h
    · injection h with h; cases h; exact ⟨rfl, rfl, rfl, rfl⟩
    · cases h

theorem foStep_evs (st : IState) (r : StreamRec) (st2 : IState) (evs2 : List Ev)
    (h : foStep st r = (st2, evs2)) :
    evs2 = [] ∨ evs2 = [Ev.createFieldOutput (to_str r.step) r.frame_index] := by
  unfold foStep at h
  split at h
  · cases h; exact Or.inl rfl
  · cases h; exact Or.inr rfl

theorem foStep_fields (st : IState) (r : StreamRec) (st2 : IState) (evs2 : List Ev)
    (h : foStep st r = (st2, evs2)) :
    st2.steps = st.steps ∧ st2.frames = st.frames ∧ st2.spPool = st.spPool
      ∧ st2.instMap = st.instMap := by
  unfold foStep at h
  split at h
  · cases h; exact ⟨rfl, rfl, rfl, rfl⟩
  · cases h; exact ⟨rfl, rfl, rfl, rfl⟩

theorem get_or_make_sp_evs (st : SPPool) (o : Option SPDict) (spo : Option Nat)
    (pool2 : SPPool) (evs3 : List Ev)
    (h : get_or_make_sp st o = (spo, pool2, evs3)) :
    evs3 = [] ∨ ∃ n d, evs3 = [Ev.createSectionPoint n d] := by
  cases o with
  | none => cases h; exact Or.inl rfl
  | some d =>
    simp only [get_or_make_sp] at h
    cases hl : lookupP st.pool (spKey d) with
    | some hd => rw [hl] at h; cases h; exact Or.inl rfl
    | none => rw [hl] at h; cases h; exact Or.inr ⟨_, _, rfl⟩

theorem get_or_make_sp_isSome (st : SPPool) (o : Option SPDict) :
    (get_or_make_sp st o).1.isSome = true ↔ o ≠ none := by
  cases o with
  | none => simp [get_or_make_sp]
  | some d =>
    unfold get_or_make_sp
    cases hl : lookupP st.pool (spKey d) <;> simp [hl]

/-- Any labeled-data write performed for a stream record uses the position
mapped from the record's position string, and carries a section-point
argument exactly when that position is `INTEGRATION_POINT` and the record's
section point is non-null. -/
theorem processRec_addData_shape (st : IState) (r : StreamRec) (evs : List Ev)
    (res : Except IErr IState) (h : processRec st r = (evs, res)) :
    ∀ p i l s, Ev.addData p i l s ∈ evs →
      p = pos_from_name r.position
      ∧ (s.isSome = true ↔ (pos_from_name r.position = AbqPos.INTEGRATION_POINT ∧
          r.section_point ≠ none)) := by
  intro p i l s hmem
  unfold processRec at h
  cases hfs : frameStep st r with
  | error e =>
    rw [hfs] at h
    injection h with h1 h2
    subst h1
    cases hmem
  | ok pr =>
    obtain ⟨st1, evs1⟩ := pr
    simp only [hfs] at h
    rcases hfo : foStep st1 r with ⟨st2, evs2⟩
    simp only [hfo] at h
    rcases hsp : get_or_make_sp st2.spPool r.section_point with ⟨spo, pool2, evs3⟩
    simp only [hsp] at h
    have hspo : spo.isSome = true ↔ r.section_point ≠ none := by
      have := get_or_make_sp_isSome st2.spPool r.section_point
      rw [hsp] at this
      exact this
    have hno1 : Ev.addData p i l s ∉ evs1 := by
      rcases frameStep_evs st r st1 evs1 hfs with h1 | h1 <;> subst h1 <;> simp
    have hno2 : Ev.addData p i l s ∉ evs2 := by
      rcases foStep_evs st1 r st2 evs2 hfo with h1 | h1 <;> subst h1 <;> simp
    have hno3 : Ev.addData p i l s ∉ evs3 := by
      rcases get_or_make_sp_evs st2.spPool r.section_point spo pool2 evs3 hsp with
        h1 | ⟨n, d, h1⟩ <;> subst h1 <;> simp
    split at h
    · injection h with h1 h2
      subst h1
      rcases List.mem_append.mp hmem with hm | hm
      · rcases List.mem_append.mp hm with hm' | hm'
        · rcases List.mem_append.mp hm' with hm'' | hm''
          · exact absurd hm'' hno1
          · exact absurd hm'' hno2
        · exact absurd hm' hno3
      · simp only [List.mem_singleton, Ev.addData.injEq] at hm
        obtain ⟨hp, hi, hl, hs⟩ := hm
        refine ⟨hp, ?_⟩
        subst hs
        by_cases hc : spo.isSome = true ∧ pos_from_name r.position = AbqPos.INTEGRATION_POINT
        · rw [if_pos hc]
          constructor
          · intro _; exact ⟨hc.2, hspo.mp hc.1⟩
          · intro _; exact hc.1
        · rw [if_neg hc]
          simp only [Option.isSome_none, Bool.false_eq_true, false_iff, not_and]
          intro hip hne
          exact hc ⟨hspo.mpr hne, hip⟩
    · injection h with h1 h2
      subst h1
      rcases List.mem_append.mp hmem with hm | hm
      · rcases List.mem_append.mp hm with hm' | hm'
        · exact absurd hm' hno1
        · exact absurd hm' hno2
      · exact absurd hm hno3

theorem pos_from_name_ip_iff (s : String) :
    pos_from_name s = AbqPos.INTEGRATION_POINT ↔ s = "INTEGRATION_POINT" := by
  by_cases h1 : s = "NODAL" <;> by_cases h2 : s = "ELEMENT_NODAL" <;>
    by_cases h3 : s = "INTEGRATION_POINT" <;> by_cases h4 : s = "WHOLE_ELEMENT" <;>
    simp_all [pos_from_name, to_str]

/-- C5: the labeled-data write of a successfully processed stream record
carries a section-point argument if and only if the record's position
string is `INTEGRATION_POINT` and the record's section point is
non-null. -/
theorem importer_sectionpoint_write_iff (st : IState) (r : StreamRec)
    (evs : List Ev) (st' : IState) (h : processRec st r = (evs, .ok st')) :
    ∀ p i l sp, Ev.addData p i l sp ∈ evs →
      (sp.isSome = true ↔ (r.position = "INTEGRATION_POINT" ∧ r.section_point ≠ none)) :=
  fun p i l sp hm =>
    ((processRec_addData_shape st r evs (.ok st') h p i l sp hm).2).trans
      (by rw [pos_from_name_ip_iff])

/-- Witness for C5: an `INTEGRATION_POINT` record with a section point is
written with a section-point argument. -/
theorem importer_sectionpoint_write_iff_witness :
    (some 0 : Option Nat).isSome = true ↔
      ((⟨"A", 1, 5, "I", "INTEGRATION_POINT", some ⟨some 2, some "Top"⟩, [5, 6],
          [[21], [22]]⟩ : StreamRec).position = "INTEGRATION_POINT"
        ∧ (⟨"A", 1, 5, "I", "INTEGRATION_POINT", some ⟨some 2, some "Top"⟩, [5, 6],
          [[21], [22]]⟩ : StreamRec).section_point ≠ none) :=
  importer_sectionpoint_write_iff ⟨["A"], [("A", 0)], [], ⟨[], 0⟩, ["I"]⟩
    ⟨"A", 1, 5, "I", "INTEGRATION_POINT", some ⟨some 2, some "Top"⟩, [5, 6], [[21], [22]]⟩
    [.createFrame "A" 1 5, .createFieldOutput "A" 1, .createSectionPoint 2 "Top",
      .addData .INTEGRATION_POINT "I" [5, 6] (some 0)]
    ⟨["A"], [("A", 0), ("A", 1)], [("A", 1)], ⟨[((2, "Top"), 0)], 1⟩, ["I"]⟩
    (by decide) AbqPos.INTEGRATION_POINT "I" [5, 6] (some 0) (by decide)

/-- C8: a position string outside the four documented values raises no
error: `pos_from_name` silently maps it to the `NODAL` constant, and every
labeled-data write performed for such a record is a nodal write. -/
theorem importer_unknown_position_to_nodal (s : String)
    (h1 : s ≠ "NODAL") (h2 : s ≠ "ELEMENT_NODAL")
    (h3 : s ≠ "INTEGRATION_POINT") (h4 : s ≠ "WHOLE_ELEMENT") :
    pos_from_name s = AbqPos.NODAL
    ∧ ∀ (st : IState) (r : StreamRec) (evs : List Ev) (res : Except IErr IState),
        processRec st r = (evs, res) → r.position = s →
        ∀ p i l sp, Ev.addData p i l sp ∈ evs → p = AbqPos.NODAL := by
  have hp : pos_from_name s = AbqPos.NODAL := by
    unfold pos_from_name to_str
    rw [if_neg h1, if_neg h2, if_neg h3, if_neg h4]
  refine ⟨hp, ?_⟩
  intro st r evs res h hrp p i l sp hm
  have h1 := (processRec_addData_shape st r evs res h p i l sp hm).1
  rw [h1, hrp, hp]

/-- Witness for C8 at the position string "BOGUS". -/
theorem importer_unknown_position_to_nodal_witness :
    pos_from_name "BOGUS" = AbqPos.NODAL ∧ AbqPos.NODAL = AbqPos.NODAL :=
  have h := importer_unknown_position_to_nodal "BOGUS"
    (by decide) (by decide) (by decide) (by decide)
  ⟨h.1,
   h.2 ⟨["A"], [("A", 0)], [], ⟨[], 0⟩, ["I"]⟩
     ⟨"A", 0, 0, "I", "BOGUS", none, [1], [[20]]⟩
     [Ev.createFieldOutput "A" 0, Ev.addData AbqPos.NODAL "I" [1] none]
     (.ok ⟨["A"], [("A", 0)], [("A", 0)], ⟨[], 0⟩, ["I"]⟩) (by decide) rfl
     AbqPos.NODAL "I" [1] none (by decide)⟩

/-- C9: every step created from the catalog is created with the `TIME`
domain constant, and the catalog's `domain` strings have no influence at
all on the steps/frames pre-creation. -/
theorem importer_step_domain_always_time :
    (∀ (st : IState) (steps : List StepRec) (n : String) (d : Domain) (tp : Scalar),
      Ev.createStep n d tp ∈ (buildSteps st steps).2 → d = Domain.TIME)
    ∧ ∀ (st : IState) (steps : List StepRec) (f : StepRec → String),
      buildSteps st (steps.map fun s => { s with domain := f s }) = buildSteps st steps := by
  constructor
  · intro st steps
    induction steps generalizing st with
    | nil => intro n d tp hm; cases hm
    | cons s rest ih =>
      intro n d tp hm
      simp only [buildSteps, buildStep] at hm
      rcases List.mem_append.mp hm with hm' | hm'
      · rcases List.mem_cons.mp hm' with he | he
        · injection he with hn hd htp
        · exfalso
          simp [List.mem_map] at he
      · exact ih _ n d tp hm'
  · intro st steps f
    induction steps generalizing st with
    | nil => rfl
    | cons s rest ih =>
      have hb : buildStep st { s with domain := f s } = buildStep st s := rfl
      simp only [List.map_cons, buildSteps, hb, ih]

/-- Witness for C9: a one-step catalog; changing its domain string to
"FREQUENCY" leaves the pre-creation untouched. -/
theorem importer_step_domain_always_time_witness :
    Domain.TIME = Domain.TIME
    ∧ buildSteps (initState [])
        (([⟨"A", "TIME", 1, [⟨0, 2, ""⟩]⟩] : List StepRec).map
          fun s => { s with domain := "FREQUENCY" }) =
      buildSteps (initState []) [⟨"A", "TIME", 1, [⟨0, 2, ""⟩]⟩] :=
  ⟨importer_step_domain_always_time.1 (initState [])
      [⟨"A", "TIME", 1, [⟨0, 2, ""⟩]⟩] "A" Domain.TIME 2 (by decide),
   importer_step_domain_always_time.2 (initState [])
      [⟨"A", "TIME", 1, [⟨0, 2, ""⟩]⟩] fun _ => "FREQUENCY"⟩

theorem lookupP_append_of_none (p : List ((Int × String) × Nat)) (k : Int × String)
    (n : Nat) (h : lookupP p k = none) : lookupP (p ++ [(k, n)]) k = some n := by
  induction p with
  | nil => simp [lookupP]
  | cons q rest ih =>
    obtain ⟨k', h'⟩ := q
    by_cases hk : k' = k
    · simp [lookupP, hk] at h
    · simp only [List.cons_append, lookupP, if_neg hk] at h ⊢
      exact ih h

/-- C10: the section-point pool keys a null (or absent) `number` as 1, so a
null-numbered section point and a genuine number-1 section point with the
same description resolve to one and the same created handle. -/
theorem importer_null_sp_number_keyed_one (pool : SPPool) (desc : Option String) :
    spKey ⟨none, desc⟩ = spKey ⟨some 1, desc⟩
    ∧ (get_or_make_sp pool (some ⟨none, desc⟩)).1.isSome = true
    ∧ (get_or_make_sp (get_or_make_sp pool (some ⟨none, desc⟩)).2.1 (some ⟨some 1, desc⟩)).1
        = (get_or_make_sp pool (some ⟨none, desc⟩)).1 := by
  have hk1 : spKey ⟨none, desc⟩ = (1, descStr desc) := rfl
  have hk2 : spKey ⟨some 1, desc⟩ = (1, descStr desc) := rfl
  refine ⟨rfl, ?_, ?_⟩
  · simp only [get_or_make_sp, hk1]
    cases hl : lookupP pool.pool (1, descStr desc) <;> simp [hl]
  · simp only [get_or_make_sp, hk1, hk2]
    cases hl : lookupP pool.pool (1, descStr desc) with
    | some h => simp [hl]
    | none =>
      simp only [hl]
      rw [lookupP_append_of_none pool.pool (1, descStr desc) pool.next hl]

/-- C6 counterexample: a stream record whose step name "B" is absent from
the catalog (which only has step "A") makes the importer fail with a
key-lookup error instead of lazily creating the step and processing the
record. -/
theorem importer_missing_step_raises_cex :
    (importRun ⟨[⟨"I", [⟨1, 0, 0, 0⟩], []⟩], [⟨"A", "TIME", 1, [⟨0, 0, ""⟩]⟩],
      [⟨"B", 0, 0, "I", "NODAL", none, [1], [[20]]⟩]⟩).2
      = some IErr.stepKeyError := by decide

/-- C6 amended: for a stream record whose (step name, frame index) pair was
not pre-created, the importer lazily creates the frame and goes on to
process the record only when the record's step name is in the catalog; when
the step name itself is absent, it raises a key-lookup error instead. -/
theorem importer_lazy_frame_creation_amended (st : IState) (r : StreamRec)
    (hnf : (to_str r.step, r.frame_index) ∉ st.frames) :
    (to_str r.step ∈ st.steps →
      Ev.createFrame (to_str r.step) r.frame_index r.frame_value ∈ (processRec st r).1
      ∧ (processRec st r).2 ≠ Except.error IErr.stepKeyError
      ∧ ∀ st', (processRec st r).2 = .ok st' → (to_str r.step, r.frame_index) ∈ st'.frames)
    ∧ (to_str r.step ∉ st.steps → processRec st r = ([], .error IErr.stepKeyError)) := by
  constructor
  · intro hstep
    have hfs : frameStep st r = .ok
        ({ st with frames := st.frames ++ [(to_str r.step, r.frame_index)] },
         [Ev.createFrame (to_str r.step) r.frame_index r.frame_value]) := by
      unfold frameStep
      rw [if_neg hnf, if_pos hstep]
    rcases hfo : foStep { st with frames := st.frames ++ [(to_str r.step, r.frame_index)] } r
      with ⟨st2, evs2⟩
    rcases hsp : get_or_make_sp st2.spPool r.section_point with ⟨spo, pool2, evs3⟩
    have hfr2 : st2.frames = st.frames ++ [(to_str r.step, r.frame_index)] :=
      (foStep_fields _ _ _ _ hfo).2.1
    by_cases hin : to_str r.instanceName ∈ st2.instMap
    · have hpr : processRec st r =
          ([Ev.createFrame (to_str r.step) r.frame_index r.frame_value] ++ evs2 ++ evs3 ++
            [Ev.addData (pos_from_name r.position) (to_str r.instanceName) r.labels
              (if spo.isSome = true ∧ pos_from_name r.position = AbqPos.INTEGRATION_POINT
                then spo else none)],
           .ok { st2 with spPool := pool2 }) := by
        simp only [processRec, hfs, hfo, hsp]
        rw [if_pos hin]
      rw [hpr]
      refine ⟨by simp, by simp, ?_⟩
      intro st' hst'
      injection hst' with hst'
      subst hst'
      simp [hfr2]
    · have hpr : processRec st r =
          ([Ev.createFrame (to_str r.step) r.frame_index r.frame_value] ++ evs2 ++ evs3,
           .error IErr.missingInstance) := by
        simp only [processRec, hfs, hfo, hsp]
        rw [if_neg hin]
      rw [hpr]
      refine ⟨by simp, by simp, ?_⟩
      intro st' hst'
      cases hst'
  · intro hstep
    have hfs : frameStep st r = .error .stepKeyError := by
      unfold frameStep
      rw [if_neg hnf, if_neg hstep]
    simp only [processRec, hfs]

/-- Witness for the amended C6: a record for the known step "A" at a new
frame index is processed with a lazily created frame; a record for the
unknown step "B" raises. -/
theorem importer_lazy_frame_creation_amended_witness :
    (Ev.createFrame "A" 3 7 ∈
        (processRec ⟨["A"], [], [], ⟨[], 0⟩, ["I"]⟩ ⟨"A", 3, 7, "I", "NODAL", none, [1], [[20]]⟩).1
      ∧ (processRec ⟨["A"], [], [], ⟨[], 0⟩, ["I"]⟩
          ⟨"A", 3, 7, "I", "NODAL", none, [1], [[20]]⟩).2 ≠ Except.error IErr.stepKeyError
      ∧ ∀ st', (processRec ⟨["A"], [], [], ⟨[], 0⟩, ["I"]⟩
          ⟨"A", 3, 7, "I", "NODAL", none, [1], [[20]]⟩).2 = .ok st' → ("A", 3) ∈ st'.frames)
    ∧ processRec ⟨["A"], [], [], ⟨[], 0⟩, ["I"]⟩ ⟨"B", 3, 7, "I", "NODAL", none, [1], [[20]]⟩
        = ([], .error IErr.stepKeyError) :=
  ⟨(importer_lazy_frame_creation_amended ⟨["A"], [], [], ⟨[], 0⟩, ["I"]⟩
      ⟨"A", 3, 7, "I", "NODAL", none, [1], [[20]]⟩ (by decide)).1 (by decide),
   (importer_lazy_frame_creation_amended ⟨["A"], [], [], ⟨[], 0⟩, ["I"]⟩
      ⟨"B", 3, 7, "I", "NODAL", none, [1], [[20]]⟩ (by decide)).2 (by decide)⟩

theorem geomEventsInst_all (m : MeshInst) : ∀ e ∈ geomEventsInst m, isGeomEv e = true := by
  intro e he
  rcases List.mem_append.mp he with h | h
  · rcases List.mem_append.mp h with h' | h'
    · rcases List.mem_append.mp h' with h'' | h''
      · rw [List.mem_singleton] at h''; subst h''; rfl
      · by_cases hn : m.nodes.isEmpty
        · rw [if_pos hn] at h''; cases h''
        · rw [if_neg hn] at h''
          rw [List.mem_singleton] at h''; subst h''; rfl
    · by_cases hel : m.elements.isEmpty
      · rw [if_pos hel] at h'; cases h'
      · rw [if_neg hel] at h'
        rcases List.mem_map.mp h' with ⟨ty, _, h''⟩
        subst h''; rfl
  · rw [List.mem_singleton] at h; subst h; rfl

theorem geomEvents_all (mesh : List MeshInst) :
    ∀ e ∈ geomEvents mesh, isGeomEv e = true := by
  induction mesh with
  | nil => intro e he; cases he
  | cons m rest ih =>
    intro e he
    simp only [geomEvents, List.map_cons, List.flatten_cons] at he
    rcases List.mem_append.mp he with h | h
    · exact geomEventsInst_all m e h
    · exact ih e h

theorem buildSteps_all_result (st : IState) (steps : List StepRec) :
    ∀ e ∈ (buildSteps st steps).2, isResultEv e = true := by
  induction steps generalizing st with
  | nil => intro e he; cases he
  | cons s rest ih =>
    intro e he
    simp only [buildSteps, buildStep] at he
    rcases List.mem_append.mp he with h | h
    · rcases List.mem_cons.mp h with h' | h'
      · subst h'; rfl
      · rcases List.mem_map.mp h' with ⟨fr, _, h''⟩
        subst h''; rfl
    · exact ih _ e h

theorem processRec_all_result (st : IState) (r : StreamRec) (evs : List Ev)
    (res : Except IErr IState) (h : processRec st r = (evs, res)) :
    ∀ e ∈ evs, isResultEv e = true := by
  unfold processRec at h
  cases hfs : frameStep st r with
  | error e' =>
    rw [hfs] at h
    injection h with h1 h2
    subst h1
    intro e he; cases he
  | ok pr =>
    obtain ⟨st1, evs1⟩ := pr
    simp only [hfs] at h
    rcases hfo : foStep st1 r with ⟨st2, evs2⟩
    simp only [hfo] at h
    rcases hsp : get_or_make_sp st2.spPool r.section_point with ⟨spo, pool2, evs3⟩
    simp only [hsp] at h
    have h1 : ∀ e ∈ evs1, isResultEv e = true := by
      rcases frameStep_evs st r st1 evs1 hfs with h' | h'
      · subst h'; intro e he; cases he
      · subst h'; intro e he; rw [List.mem_singleton] at he; subst he; rfl
    have h2 : ∀ e ∈ evs2, isResultEv e = true := by
      rcases foStep_evs st1 r st2 evs2 hfo with h' | h'
      · subst h'; intro e he; cases he
      · subst h'; intro e he; rw [List.mem_singleton] at he; subst he; rfl
    have h3 : ∀ e ∈ evs3, isResultEv e = true := by
      rcases get_or_make_sp_evs st2.spPool r.section_point spo pool2 evs3 hsp with
        h' | ⟨n, d, h'⟩
      · subst h'; intro e he; cases he
      · subst h'; intro e he; rw [List.mem_singleton] at he; subst he; rfl
    split at h
    · injection h with ha hb
      subst ha
      intro e he
      rcases List.mem_append.mp he with hm | hm
      · rcases List.mem_append.mp hm with hm' | hm'
        · rcases List.mem_append.mp hm' with hm'' | hm''
          · exact h1 e hm''
          · exact h2 e hm''
        · exact h3 e hm'
      · rw [List.mem_singleton] at hm; subst hm; rfl
    · injection h with ha hb
      subst ha
      intro e he
      rcases List.mem_append.mp he with hm | hm
      · rcases List.mem_append.mp hm with hm' | hm'
        · exact h1 e hm'
        · exact h2 e hm'
      · exact h3 e hm

theorem processStream_all_result (st : IState) (rs : List StreamRec) :
    ∀ e ∈ (processStream st rs).1, isResultEv e = true := by
  induction rs generalizing st with
  | nil => intro e he; cases he
  | cons r rest ih =>
    intro e he
    simp only [processStream] at he
    rcases hpr : processRec st r with ⟨evs, res⟩
    cases res with
    | error er =>
      simp only [hpr] at he
      exact processRec_all_result st r evs _ hpr e he
    | ok st' =>
      simp only [hpr] at he
      rcases hps : processStream st' rest with ⟨evs', e'⟩
      simp only [hps] at he
      rcases List.mem_append.mp he with hm | hm
      · exact processRec_all_result st r evs _ hpr e hm
      · have := ih st'
        rw [hps] at this
        exact this e hm

/-- C1: on every input, the importer's action trace decomposes as: geometry
writes only, then the save→close→reopen barrier, then results writes only,
then — exactly when nothing raised — the final save and close; the reopen
(and with it the barrier between the two phases) occurs exactly once. -/
theorem importer_geometry_barrier (inp : ImportInput) :
    ∃ g r0 tail,
      (importRun inp).1 = g ++ [Ev.save, Ev.close, Ev.reopen] ++ r0 ++ tail
      ∧ (∀ e ∈ g, isGeomEv e = true)
      ∧ (∀ e ∈ r0, isResultEv e = true)
      ∧ tail = (if (importRun inp).2 = none then [Ev.save, Ev.close] else [])
      ∧ (importRun inp).1.count Ev.reopen = 1 := by
  rcases hbs : buildSteps (initState inp.mesh) inp.steps with ⟨st1, sevs⟩
  rcases hps : processStream st1 inp.stream with ⟨revs, err⟩
  have hsevs : ∀ e ∈ sevs, isResultEv e = true := by
    have := buildSteps_all_result (initState inp.mesh) inp.steps
    rw [hbs] at this
    exact this
  have hrevs : ∀ e ∈ revs, isResultEv e = true := by
    have := processStream_all_result st1 inp.stream
    rw [hps] at this
    exact this
  have hg := geomEvents_all inp.mesh
  have hr0 : ∀ e ∈ Ev.sectionCategory :: (sevs ++ revs), isResultEv e = true := by
    intro e he
    rcases List.mem_cons.mp he with rfl | he'
    · rfl
    · rcases List.mem_append.mp he' with hm | hm
      · exact hsevs e hm
      · exact hrevs e hm
  have hnog : Ev.reopen ∉ geomEvents inp.mesh :=
    fun hm => by simpa [isGeomEv] using hg _ hm
  have hnosevs : Ev.reopen ∉ sevs :=
    fun hm => by simpa [isResultEv] using hsevs _ hm
  have hnorevs : Ev.reopen ∉ revs :=
    fun hm => by simpa [isResultEv] using hrevs _ hm
  cases err with
  | some e =>
    have himp : importRun inp =
        (geomEvents inp.mesh ++ [Ev.save, Ev.close, Ev.reopen, Ev.sectionCategory]
          ++ sevs ++ revs, some e) := by
      simp only [importRun, hbs, hps]
    refine ⟨geomEvents inp.mesh, Ev.sectionCategory :: (sevs ++ revs), [], ?_, hg, hr0, ?_, ?_⟩
    · rw [himp]
      simp [List.append_assoc]
    · rw [himp]
      simp
    · rw [himp]
      simp [List.count_append, List.count_eq_zero.mpr hnog,
        List.count_eq_zero.mpr hnosevs, List.count_eq_zero.mpr hnorevs, List.count_cons]
  | none =>
    have himp : importRun inp =
        (geomEvents inp.mesh ++ [Ev.save, Ev.close, Ev.reopen, Ev.sectionCategory]
          ++ sevs ++ revs ++ [Ev.save, Ev.close], none) := by
      simp only [importRun, hbs, hps]
    refine ⟨geomEvents inp.mesh, Ev.sectionCategory :: (sevs ++ revs),
      [Ev.save, Ev.close], ?_, hg, hr0, ?_, ?_⟩
    · rw [himp]
      simp [List.append_assoc]
    · rw [himp]
      simp
    · rw [himp]
      simp [List.count_append, List.count_eq_zero.mpr hnog,
        List.count_eq_zero.mpr hnosevs, List.count_eq_zero.mpr hnorevs, List.count_cons]

theorem exportFrame_events (sname : String) (i : Int) (fr : SrcFrame) :
    ∀ e ∈ (exportFrame sname i fr).1, ∃ s j, e = XEv.writeRecord s j := by
  intro e he
  unfold exportFrame at he
  cases hf : fr.fieldNT11 with
  | none => rw [hf] at he; cases he
  | some vs =>
    simp only [hf] at he
    by_cases hv : vs.isEmpty
    · rw [if_pos hv] at he; cases he
    · rw [if_neg hv] at he
      cases hb : bucketValues [] vs with
      | error u => rw [hb] at he; cases he
      | ok bs =>
        rw [hb] at he
        rcases List.mem_map.mp he with ⟨x, _, h⟩
        exact ⟨sname, i, h.symm⟩

theorem exportNT11Frames_events (sname : String) (i : Int) (frs : List SrcFrame) :
    ∀ e ∈ (exportNT11Frames sname i frs).1, ∃ s j, e = XEv.writeRecord s j := by
  induction frs generalizing i with
  | nil => intro e he; cases he
  | cons fr rest ih =>
    intro e he
    simp only [exportNT11Frames] at he
    rcases hf : exportFrame sname i fr with ⟨evs, eo⟩
    cases eo with
    | some u =>
      simp only [hf] at he
      have := exportFrame_events sname i fr
      rw [hf] at this
      exact this e he
    | none =>
      simp only [hf] at he
      rcases hrest : exportNT11Frames sname (i + 1) rest with ⟨evs', eo'⟩
      simp only [hrest] at he
      rcases List.mem_append.mp he with hm | hm
      · have := exportFrame_events sname i fr
        rw [hf] at this
        exact this e hm
      · have := ih (i + 1)
        rw [hrest] at this
        exact this e hm

theorem exportNT11Steps_events (filt : Option (List String)) (ss : List (String × SrcStep)) :
    ∀ e ∈ (exportNT11Steps filt ss).1, ∃ s j, e = XEv.writeRecord s j := by
  induction ss with
  | nil => intro e he; cases he
  | cons p rest ih =>
    obtain ⟨sname, st⟩ := p
    intro e he
    simp only [exportNT11Steps] at he
    by_cases hr : retainStep filt sname
    · rw [if_pos hr] at he
      rcases hf : exportNT11Frames sname 0 st.frames with ⟨evs, eo⟩
      cases eo with
      | some u =>
        simp only [hf] at he
        have := exportNT11Frames_events sname 0 st.frames
        rw [hf] at this
        exact this e he
      | none =>
        simp only [hf] at he
        rcases hrest : exportNT11Steps filt rest with ⟨evs', eo'⟩
        simp only [hrest] at he
        rcases List.mem_append.mp he with hm | hm
        · have := exportNT11Frames_events sname 0 st.frames
          rw [hf] at this
          exact this e hm
        · have := ih
          rw [hrest] at this
          exact this e hm
    · rw [if_neg hr] at he
      exact ih e he

/-- C7 counterexample: exporting a store whose single frame holds one value
record with a malformed payload aborts after the store was opened, and the
trace contains no close of the store handle. -/
theorem store_close_skipped_on_error_cex :
    (exportRun ⟨[("S", ⟨[⟨0, some [⟨"I", SrcPos.NODAL, none, some 1, none,
        RawVal.other⟩]⟩]⟩)]⟩ none).2 = some ()
    ∧ XEv.openStore ∈ (exportRun ⟨[("S", ⟨[⟨0, some [⟨"I", SrcPos.NODAL, none, some 1, none,
        RawVal.other⟩]⟩]⟩)]⟩ none).1
    ∧ XEv.closeStore ∉ (exportRun ⟨[("S", ⟨[⟨0, some [⟨"I", SrcPos.NODAL, none, some 1, none,
        RawVal.other⟩]⟩]⟩)]⟩ none).1 := by
  decide

/-- C7 amended: both programs close the store handle on the normal
completion path (the exporter ends with the close; the importer ends with
the final save and close).  On an error exit path after the handle is open,
the exception propagates without cleanup: the exporter's trace contains no
close at all, and the importer's trace contains only the one close of the
geometry barrier — the reopened handle is never closed. -/
theorem store_close_on_success_only_amended :
    (∀ (odb : SrcOdb) (filt : Option (List String)),
      ((exportRun odb filt).2 = none →
        (exportRun odb filt).1.getLast? = some XEv.closeStore)
      ∧ ((exportRun odb filt).2.isSome = true →
        XEv.closeStore ∉ (exportRun odb filt).1))
    ∧ ∀ (inp : ImportInput),
      ((importRun inp).2 = none → ∃ pre, (importRun inp).1 = pre ++ [Ev.save, Ev.close])
      ∧ ((importRun inp).2.isSome = true → (importRun inp).1.count Ev.close = 1) := by
  constructor
  · intro odb filt
    rcases hx : exportNT11Steps filt odb.steps with ⟨evs, eo⟩
    have hwr := exportNT11Steps_events filt odb.steps
    rw [hx] at hwr
    cases eo with
    | some u =>
      have hrun : exportRun odb filt =
          ([XEv.openStore, XEv.writeMesh, XEv.writeSteps] ++ evs, some u) := by
        simp only [exportRun, hx]
      rw [hrun]
      constructor
      · intro h; simp at h
      · intro _ hm
        rcases List.mem_append.mp hm with h | h
        · simp at h
        · rcases hwr _ h with ⟨s, j, hh⟩
          cases hh
    | none =>
      have hrun : exportRun odb filt =
          ([XEv.openStore, XEv.writeMesh, XEv.writeSteps] ++ evs ++ [XEv.closeStore],
           none) := by
        simp only [exportRun, hx]
      rw [hrun]
      constructor
      · intro _
        exact List.getLast?_concat _
      · intro h; simp at h
  · intro inp
    rcases hbs : buildSteps (initState inp.mesh) inp.steps with ⟨st1, sevs⟩
    rcases hps : processStream st1 inp.stream with ⟨revs, err⟩
    have hsevs : ∀ e ∈ sevs, isResultEv e = true := by
      have := buildSteps_all_result (initState inp.mesh) inp.steps
      rw [hbs] at this
      exact this
    have hrevs : ∀ e ∈ revs, isResultEv e = true := by
      have := processStream_all_result st1 inp.stream
      rw [hps] at this
      exact this
    have hnog : Ev.close ∉ geomEvents inp.mesh :=
      fun hm => by simpa [isGeomEv] using geomEvents_all inp.mesh _ hm
    have hnosevs : Ev.close ∉ sevs :=
      fun hm => by simpa [isResultEv] using hsevs _ hm
    have hnorevs : Ev.close ∉ revs :=
      fun hm => by simpa [isResultEv] using hrevs _ hm
    cases err with
    | some e =>
      have himp : importRun inp =
          (geomEvents inp.mesh ++ [Ev.save, Ev.close, Ev.reopen, Ev.sectionCategory]
            ++ sevs ++ revs, some e) := by
        simp only [importRun, hbs, hps]
      rw [himp]
      constructor
      · intro h; simp at h
      · intro _
        simp [List.count_append, List.count_eq_zero.mpr hnog,
          List.count_eq_zero.mpr hnosevs, List.count_eq_zero.mpr hnorevs, List.count_cons]
    | none =>
      have himp : importRun inp =
          (geomEvents inp.mesh ++ [Ev.save, Ev.close, Ev.reopen, Ev.sectionCategory]
            ++ sevs ++ revs ++ [Ev.save, Ev.close], none) := by
        simp only [importRun, hbs, hps]
      rw [himp]
      constructor
      · intro _
        exact ⟨geomEvents inp.mesh ++ [Ev.save, Ev.close, Ev.reopen, Ev.sectionCategory]
          ++ sevs ++ revs, rfl⟩
      · intro h; simp at h

/-- Witness for the amended C7: a clean export ends in a close; the
malformed-payload export never closes; a clean import ends in save, close;
an import hitting a missing instance performs only the barrier close. -/
theorem store_close_on_success_only_amended_witness :
    (exportRun ⟨[]⟩ none).1.getLast? = some XEv.closeStore
    ∧ XEv.closeStore ∉ (exportRun ⟨[("S", ⟨[⟨0, some [⟨"I", SrcPos.NODAL, none, some 1,
        none, RawVal.other⟩]⟩]⟩)]⟩ none).1
    ∧ (∃ pre, (importRun ⟨[], [], []⟩).1 = pre ++ [Ev.save, Ev.close])
    ∧ (importRun ⟨[], [⟨"A", "TIME", 1, [⟨0, 0, ""⟩]⟩],
        [⟨"A", 0, 0, "I", "NODAL", none, [1], [[20]]⟩]⟩).1.count Ev.close = 1 :=
  ⟨(store_close_on_success_only_amended.1 ⟨[]⟩ none).1 (by decide),
   (store_close_on_success_only_amended.1 ⟨[("S", ⟨[⟨0, some [⟨"I", SrcPos.NODAL, none,
      some 1, none, RawVal.other⟩]⟩]⟩)]⟩ none).2 (by decide),
   (store_close_on_success_only_amended.2 ⟨[], [], []⟩).1 (by decide),
   (store_close_on_success_only_amended.2 ⟨[], [⟨"A", "TIME", 1, [⟨0, 0, ""⟩]⟩],
      [⟨"A", 0, 0, "I", "NODAL", none, [1], [[20]]⟩]⟩).2 (by decide)⟩
